import Mathlib

set_option autoImplicit false
set_option maxHeartbeats 1000000

/-!
Verification of the NLU protocol parser, slot-filling validator, prompt
renderers and required-keys registry.

The Go sources are embedded shallowly.  All string algorithms are written
over explicit character lists with structural recursion so that every
definition evaluates by kernel reduction; `String` values are viewed
through their underlying character list.  Go `float64` values are
modelled by exact rationals: every numeric literal appearing in the
specification examples (`0.92`, `0.4`, `0.9`, `0.5`) is exactly
representable in binary64 or compared only against `0.5` (itself exact),
so every comparison performed by the code agrees with the rational
model on the inputs considered by the claims.
-/

/-- ASCII whitespace, modelling the character class trimmed by the Go
standard library trim on the (ASCII) inputs considered here. -/
def isSpaceChar (c : Char) : Bool :=
  c == ' ' || c == '\t' || c == '\n' || c == '\r'

/-- Model of Go `strings.TrimSpace` on character lists. -/
def trimChars (l : List Char) : List Char :=
  ((l.dropWhile isSpaceChar).reverse.dropWhile isSpaceChar).reverse

/-- Model of Go `strings.TrimSpace`. -/
def strTrim (s : String) : String :=
  ⟨trimChars s.toList⟩

/-- Model of Go `strings.ToUpper` (ASCII letters; the inputs considered
by the claims are ASCII). -/
def strToUpper (s : String) : String :=
  ⟨s.toList.map Char.toUpper⟩

/-- Model of Go `strings.Join`. -/
def strJoin (sep : String) (l : List String) : String :=
  ⟨List.intercalate sep.toList (l.map String.toList)⟩

/-- Model of Go `strings.Split(s, "##")`: split around each
non-overlapping occurrence of the record separator, left to right.
`acc` holds the reversed characters of the segment being read. -/
def splitRecords (acc : List Char) : List Char → List (List Char)
  | '#' :: '#' :: rest => acc.reverse :: splitRecords [] rest
  | c :: rest => splitRecords (c :: acc) rest
  | [] => [acc.reverse]

/-- Model of Go `strings.Split(s, "<||>")`: split around each
non-overlapping occurrence of the field separator, left to right. -/
def splitFields (acc : List Char) : List Char → List (List Char)
  | '<' :: '|' :: '|' :: '>' :: rest => acc.reverse :: splitFields [] rest
  | c :: rest => splitFields (c :: acc) rest
  | [] => [acc.reverse]

/-- Model of Go `strings.Split(s, ",")`. -/
def splitCommaL (acc : List Char) : List Char → List (List Char)
  | ',' :: rest => acc.reverse :: splitCommaL [] rest
  | c :: rest => splitCommaL (c :: acc) rest
  | [] => [acc.reverse]

/-- Decimal digits to a natural number. -/
def digitsToNat (l : List Char) : Nat :=
  l.foldl (fun n c => 10 * n + (c.toNat - '0'.toNat)) 0

/-- Model of Go `strconv.Atoi` with the error discarded, as done at
every call site in the source (`start, _ := strconv.Atoi(...)`): a
fully numeric string with an optional sign parses to its value, any
other string yields `0`.  The model uses unbounded integers; the Go
64-bit overflow clamp is not exercised by any claim. -/
def atoiL (l : List Char) : Int :=
  match l with
  | '+' :: r => if r ≠ [] ∧ r.all Char.isDigit then (digitsToNat r : Int) else 0
  | '-' :: r => if r ≠ [] ∧ r.all Char.isDigit then -(digitsToNat r : Int) else 0
  | _ => if l ≠ [] ∧ l.all Char.isDigit then (digitsToNat l : Int) else 0

/-- Consume an optional sign; returns (isNegative, rest). -/
def splitSign : List Char → Bool × List Char
  | '+' :: r => (false, r)
  | '-' :: r => (true, r)
  | l => (false, l)

/-- Parse a decimal mantissa `digits [. digits]` (at least one digit on
one side of the dot); returns `(m, k, rest)` where the mantissa value
is `m / 10 ^ k`. -/
def floatCore (l : List Char) : Option (Nat × Nat × List Char) :=
  let ip := l.takeWhile Char.isDigit
  let l1 := l.dropWhile Char.isDigit
  match l1 with
  | '.' :: r =>
    let fp := r.takeWhile Char.isDigit
    let l2 := r.dropWhile Char.isDigit
    if ip.isEmpty && fp.isEmpty then none
    else some (digitsToNat ip * 10 ^ fp.length + digitsToNat fp, fp.length, l2)
  | _ => if ip.isEmpty then none else some (digitsToNat ip, 0, l1)

/-- The rational value `±(m / 10 ^ k) * 10 ^ ex`, assembled with integer
arithmetic and a single `mkRat`. -/
def ratOfParts (neg : Bool) (m : Nat) (k : Nat) (ex : Int) : Rat :=
  let sn : Int := if neg then -(m : Int) else (m : Int)
  if 0 ≤ ex then mkRat (sn * (10 : Int) ^ ex.toNat) (10 ^ k)
  else mkRat sn (10 ^ k * 10 ^ (-ex).toNat)

/-- Parse an exponent digit group after `e`/`E`. -/
def expDigits (r : List Char) : Option (Int × List Char) :=
  let p := splitSign r
  let ds := p.2.takeWhile Char.isDigit
  let r2 := p.2.dropWhile Char.isDigit
  if ds.isEmpty then none
  else some (if p.1 then -(digitsToNat ds : Int) else (digitsToNat ds : Int), r2)

/-- Parse an optional exponent part. -/
def expCore (l : List Char) : Option (Int × List Char) :=
  match l with
  | 'e' :: r => expDigits r
  | 'E' :: r => expDigits r
  | _ => some (0, l)

/-- Model of Go `strconv.ParseFloat(s, 64)` with the error discarded,
as done at the call site (`conf, _ := strconv.ParseFloat(...)`): the
whole string must be a signed decimal with optional fraction and
exponent, otherwise the value is `0`.  Special forms (`Inf`, `NaN`,
hexadecimal, digit-group underscores) are not exercised by any claim
and are modelled as non-numeric. -/
def strconvParseFloat (l : List Char) : Rat :=
  let p := splitSign l
  match floatCore p.2 with
  | none => 0
  | some (m, k, l2) =>
    match expCore l2 with
    | none => 0
    | some (ex, l3) =>
      if l3.isEmpty then ratOfParts p.1 m k ex
      else 0

/-- Model of the source helper `parseFloat` (a best-effort
`fmt.Sscanf(s, "%f", &f)` whose error is ignored, leaving `0` on
failure): leading spaces are skipped and the longest numeric prefix is
read.  Corner cases around malformed exponents are modelled loosely;
no claim observes the numeric value produced by this helper. -/
def parseFloat (l : List Char) : Rat :=
  let l0 := l.dropWhile isSpaceChar
  let p := splitSign l0
  match floatCore p.2 with
  | none => 0
  | some (m, k, l2) =>
    match expCore l2 with
    | none => ratOfParts p.1 m k 0
    | some (ex, _) => ratOfParts p.1 m k ex

/-- Go `int(f)` conversion: truncation toward zero. -/
def ratTrunc (q : Rat) : Int :=
  (q.num).tdiv (q.den : Int)

/-! ## Data model (entity side, `prompt/entity/entity_prompt.go`) -/

structure EntitySpan where
  Type' : String
  Raw : String
  Start : Int
  End : Int
  Confidence : Rat
deriving DecidableEq

structure EntityOutput where
  Entities : List EntitySpan
  Missing : List String
  Language : String
deriving DecidableEq

/-- `MissingKeys` recomputes missing keys given the required list.  The
Go `map[string]bool` written only with `true` is modelled as the list
of inserted keys, queried by membership; `mkRat 1 2` is the source
literal `0.5`, exact in binary64. -/
def EntityOutput.MissingKeys (o : EntityOutput) (required : List String) : List String :=
  let found : List String :=
    o.Entities.foldl
      (fun m e => if mkRat 1 2 < e.Confidence ∧ (0 : Int) ≤ e.Start then e.Type' :: m else m)
      []
  required.foldl (fun miss k => if k ∈ found then miss else miss ++ [k]) []

/-- One step of `ParseEntityOutput`: process a single `##`-delimited
record, mirroring the Go loop body (trim the record, skip empty and
sentinel records, split on the field separator, dispatch on the tag by
prefix match in source order). -/
def processEntityRecord (out : EntityOutput) (seg : List Char) : EntityOutput :=
  let line := trimChars seg
  if line = [] ∨ line = "<|COMPLETE|>".toList then out
  else
    match splitFields [] line with
    | [] => out
    | f0 :: rest =>
      if "(entity".toList.isPrefixOf f0 then
        match rest with
        | t :: r :: s :: en :: cf :: _ =>
          { out with Entities := out.Entities ++
              [{ Type' := ⟨t⟩, Raw := ⟨r⟩, Start := atoiL s, End := atoiL en,
                 Confidence := strconvParseFloat cf }] }
        | _ => out
      else if "(missing".toList.isPrefixOf f0 then
        match rest with
        | k :: _ => { out with Missing := out.Missing ++ [⟨k⟩] }
        | _ => out
      else if "(language".toList.isPrefixOf f0 then
        match rest with
        | code :: _ :: _ :: _ => { out with Language := ⟨code⟩ }
        | _ => out
      else out

/-- Fold of the record processor over the `##`-split segments. -/
def parseEntitySegments (segs : List (List Char)) : EntityOutput :=
  segs.foldl processEntityRecord ⟨[], [], ""⟩

/-- `ParseEntityOutput` parses raw LLM output into an `EntityOutput`.
The Go function returns `(out, nil)` on every path; the always-`nil`
error is the second component. -/
def ParseEntityOutput (raw : String) : EntityOutput × Option String :=
  (parseEntitySegments (splitRecords [] raw.toList), none)

/-! ## Data model (intent side, `prompt/intent/intent_prompt.go` and
the unnamed file holding `ParseIntentOutput`) -/

/-- `Meta` holds the raw `metaJSON` field text.  The Go code decodes it
with `json.Unmarshal`, ignoring errors (an undecodable field leaves an
empty map); no claim observes the decoded metadata, so the model keeps
the undecoded field. -/
structure IntentResult where
  Name : String
  Confidence : Rat
  Priority : Rat
  Meta : String
deriving DecidableEq

structure LanguageResult where
  Code : String
  Confidence : Rat
  PrimaryFlag : Int
  Meta : String
deriving DecidableEq

structure IntentOutput where
  Intents : List IntentResult
  Languages : List LanguageResult
deriving DecidableEq

/-- One step of `ParseIntentOutput`: trim the record, skip empty and
sentinel records, require at least five fields, then dispatch on the
tag by exact match. -/
def processIntentRecord (out : IntentOutput) (seg : List Char) : IntentOutput :=
  let line := trimChars seg
  if line = [] ∨ line = "<|COMPLETE|>".toList then out
  else
    let fields := splitFields [] line
    if fields.length < 5 then out
    else
      match fields with
      | f0 :: f1 :: f2 :: f3 :: f4 :: _ =>
        if f0 = "(intent".toList then
          { out with Intents := out.Intents ++
              [{ Name := ⟨f1⟩, Confidence := parseFloat f2, Priority := parseFloat f3,
                 Meta := ⟨f4⟩ }] }
        else if f0 = "(language".toList then
          { out with Languages := out.Languages ++
              [{ Code := ⟨f1⟩, Confidence := parseFloat f2,
                 PrimaryFlag := ratTrunc (parseFloat f3), Meta := ⟨f4⟩ }] }
        else out
      | _ => out

/-- Fold of the intent record processor over the `##`-split segments. -/
def parseIntentSegments (segs : List (List Char)) : IntentOutput :=
  segs.foldl processIntentRecord ⟨[], []⟩

/-- `ParseIntentOutput` parses raw LLM output into an `IntentOutput`;
the Go function returns `(out, nil)` on every path. -/
def ParseIntentOutput (raw : String) : IntentOutput × Option String :=
  (parseIntentSegments (splitRecords [] raw.toList), none)

/-! ## Template renderers (`prompt/entity/entity_prompt.go` and
`main.go`) and required-keys registry -/

/-- First replacement pair whose (non-empty) pattern is a prefix of
`l`, in argument order — the dispatch rule of Go `strings.Replacer`. -/
def matchRep (pairs : List (List Char × List Char)) (l : List Char) :
    Option (List Char × List Char) :=
  pairs.find? (fun p => !p.1.isEmpty && p.1.isPrefixOf l)

/-- Model of Go `strings.Replacer.Replace`: scan left to right; at each
position replace the first matching pattern and continue after the
replacement text (replaced text is not rescanned).  The fuel argument
(instantiated with the input length, which one step always exceeds by
consuming at least one character) makes the recursion structural. -/
def replaceManyFuel (pairs : List (List Char × List Char)) :
    Nat → List Char → List Char
  | _, [] => []
  | 0, l => l
  | fuel + 1, c :: rest =>
    match matchRep pairs (c :: rest) with
    | some p => p.2 ++ replaceManyFuel pairs fuel (rest.drop (p.1.length - 1))
    | none => c :: replaceManyFuel pairs fuel rest

/-- Model of Go `strings.NewReplacer(...).Replace` (and, with a single
pair, of `strings.ReplaceAll`) for non-empty patterns. -/
def goReplacer (pairs : List (String × String)) (s : String) : String :=
  ⟨replaceManyFuel (pairs.map fun p => (p.1.toList, p.2.toList)) s.toList.length s.toList⟩

/-- Model of Go `strings.ReplaceAll` for a non-empty pattern. -/
def goReplaceAll (pat rep s : String) : String :=
  goReplacer [(pat, rep)] s

/-- Substring occurrence, modelling Go `strings.Contains`. -/
def containsSub (pat : List Char) : List Char → Bool
  | [] => pat.isEmpty
  | c :: rest => pat.isPrefixOf (c :: rest) || containsSub pat rest

/-- Model of Go `strings.Contains(s, pat)`. -/
def hasSubstr (s pat : String) : Bool :=
  containsSub pat.toList s.toList

structure EntityModelInput where
  IntentName : String
  RequiredKeys : List String
  AllowedEntities : List String
  UserMessage : String
  Language : String

/-- The key set of the Go `uniq` map: the distinct trimmed allowed
entities. -/
def uniqKeys (l : List String) : List String :=
  (l.map strTrim).dedup

/-- `order` is an admissible iteration order of the Go `uniq` map built
from `input.AllowedEntities`: a duplicate-free list with exactly the
map's keys.  Go map iteration order is unspecified and randomized, so
the source admits every such order. -/
def EnumOf (input : EntityModelInput) (order : List String) : Prop :=
  order.Nodup ∧ (∀ k ∈ order, k ∈ uniqKeys input.AllowedEntities) ∧
    (∀ k ∈ uniqKeys input.AllowedEntities, k ∈ order)

instance (input : EntityModelInput) (order : List String) :
    Decidable (EnumOf input order) :=
  inferInstanceAs (Decidable (_ ∧ _ ∧ _))

/-- Model of `RenderEntitySystem`.  The embedded template file
`entity_template.txt` is compiled into the Go binary and is not among
the sources, so the template is a parameter; `enumOrder` is the
iteration order of the `uniq` map (see `EnumOf`).  The final
Eino-library wrapping step is an external collaborator that wraps the
content into exactly one system message and returns it, so the success
path returns the substituted content.  Errors are modelled by
`Except.error`. -/
def RenderEntitySystem (template : String) (enumOrder : List String)
    (input? : Option EntityModelInput) : Except String String :=
  match input? with
  | none => Except.error "entity input is nil"
  | some input =>
    let allowedCSV := strJoin "," enumOrder
    let reqCSV := strJoin "," input.RequiredKeys
    let content := goReplacer
      [("\x7b\x7bintent_name\x7d\x7d", input.IntentName),
       ("\x7b\x7brequired_keys_csv\x7d\x7d", reqCSV),
       ("\x7b\x7ballowed_entities_csv\x7d\x7d", allowedCSV),
       ("\x7b\x7buser_message\x7d\x7d", input.UserMessage),
       ("\x7b\x7blanguage\x7d\x7d", input.Language)] template
    Except.ok content

/-- The persona replacements map of `renderSystemPrompt` in `main.go`,
as the list of its five entries in source order. -/
def personaPairs (brand chan segs mbti desc : String) : List (String × String) :=
  [("\x7b\x7bBRAND_NAME\x7d\x7d", brand),
   ("\x7b\x7bCHANNEL\x7d\x7d", chan),
   ("\x7b\x7bTARGET_SEGMENTS\x7d\x7d", segs),
   ("\x7b\x7bMBTI_TYPE\x7d\x7d", mbti),
   ("\x7b\x7bMBTI\x7d\x7d", strTrim desc)]

/-- Model of `renderSystemPrompt` (persona flavor, `main.go`).  The Go
function reads package-level configuration values and an embedded
profile table; these are parameters here.  `applyOrder` is the order in
which the Go `for placeholder, value := range replacements` loop
applies `strings.ReplaceAll` — map iteration order is unspecified, so
it is a parameter; an admissible order is a permutation of
`personaPairs` applied to the trimmed values and the profile text. -/
def renderSystemPrompt (applyOrder : List (String × String))
    (template brandName channel targetSegments mbtiType : String)
    (profiles : String → Option String) : Except String String :=
  let brand := strTrim brandName
  let chan := strTrim channel
  let segs := strTrim targetSegments
  let mbti := strToUpper (strTrim mbtiType)
  if brand = "" ∨ chan = "" ∨ segs = "" ∨ mbti = "" then
    Except.error "system prompt configuration is incomplete"
  else
    match profiles mbti with
    | none => Except.error "mbti type not found in profiles"
    | some _ =>
      let result := applyOrder.foldl (fun acc p => goReplaceAll p.1 p.2 acc) template
      if hasSubstr result "\x7b\x7b" then
        Except.error "system prompt still contains unresolved placeholders"
      else Except.ok result

/-- Whether an `Except` result is a success. -/
def isOkE (r : Except String String) : Bool :=
  match r with
  | Except.ok _ => true
  | Except.error _ => false

/-- The payload of an `Except` result (success text or error text). -/
def renderedText (r : Except String String) : String :=
  match r with
  | Except.ok s => s
  | Except.error e => e

/-- Model of `RequiredKeysForIntent`.  The Go function reads the
process environment through `os.Getenv`; the environment is the
parameter `env`, mapping a variable name to its value, with `""` for an
unset variable exactly as `os.Getenv` reports it. -/
def RequiredKeysForIntent (env : String → String) (intentName : String) : List String :=
  if intentName = "" then []
  else
    let normalized := strTrim intentName
    let envKey := "NLU_REQUIRED_" ++ strToUpper (goReplacer [(" ", "_"), ("-", "_")] normalized)
    let value := env envKey
    if value = "" then []
    else
      (((splitCommaL [] value.toList).map (fun part => strTrim ⟨part⟩)).filter
        (fun k => k ≠ ""))

/-- The language code contributed by one record of the entity grammar:
`some code` when the record is a valid language record (non-empty, not
the sentinel, tag with prefix `(language`, at least four fields),
`none` otherwise.  The structure mirrors `processEntityRecord`. -/
def segLanguage (seg : List Char) : Option String :=
  let line := trimChars seg
  if line = [] ∨ line = "<|COMPLETE|>".toList then none
  else
    match splitFields [] line with
    | [] => none
    | f0 :: rest =>
      if "(entity".toList.isPrefixOf f0 then none
      else if "(missing".toList.isPrefixOf f0 then none
      else if "(language".toList.isPrefixOf f0 then
        match rest with
        | code :: _ :: _ :: _ => some ⟨code⟩
        | _ => none
      else none

/-- A record the entity parser silently drops: its tag matches none of
the three known prefixes, or it is an `(entity` record with fewer than
six fields. -/
def droppedEntityRecord (seg : List Char) : Bool :=
  match splitFields [] (trimChars seg) with
  | [] => true
  | f0 :: rest =>
    (!("(entity".toList.isPrefixOf f0) && !("(missing".toList.isPrefixOf f0) &&
        !("(language".toList.isPrefixOf f0)) ||
      ("(entity".toList.isPrefixOf f0 && decide (rest.length < 5))

/-- Concrete input for the order-dependence divergence: a duplicated
allowed-entity list. -/
def entityInputC6 : EntityModelInput :=
  ⟨"i", ["k"], ["brand", "price", "brand"], "u", "l"⟩

/-- Environment exhibiting an entry for the normalized empty intent
name. -/
def envC8 : String → String :=
  fun k => if k = "NLU_REQUIRED_" then "brand" else ""

/-- Environment with a required-keys entry for the intent
`"add item"`. -/
def envW : String → String :=
  fun k => if k = "NLU_REQUIRED_ADD_ITEM" then " brand , price ,," else ""

/-! ## Theorems -/

/-- The satisfied-type accumulator of `MissingKeys` contains a key iff
it was already present or some processed entity of that type passes the
confidence/offset thresholds. -/
theorem mem_foldl_satisfied (es : List EntitySpan) (m : List String) (k : String) :
    (k ∈ es.foldl
        (fun acc e =>
          if mkRat 1 2 < e.Confidence ∧ (0 : Int) ≤ e.Start then e.Type' :: acc else acc)
        m) ↔
      k ∈ m ∨ ∃ e ∈ es, e.Type' = k ∧ mkRat 1 2 < e.Confidence ∧ (0 : Int) ≤ e.Start := by
  induction es generalizing m with
  | nil => simp
  | cons e es ih =>
    simp only [List.foldl_cons]
    rw [ih]
    by_cases h : mkRat 1 2 < e.Confidence ∧ (0 : Int) ≤ e.Start
    · simp only [if_pos h, List.mem_cons, List.mem_cons, eq_comm (a := k)]
      constructor
      · rintro (⟨h1 | h1⟩ | ⟨x, hx, hxk, hxc⟩)
        · exact Or.inr ⟨e, Or.inl rfl, h1, h⟩
        · exact Or.inl h1
        · exact Or.inr ⟨x, Or.inr hx, hxk, hxc⟩
      · rintro (h1 | ⟨x, (rfl | hx), hxk, hxc⟩)
        · exact Or.inl (Or.inr h1)
        · exact Or.inl (Or.inl hxk)
        · exact Or.inr ⟨x, hx, hxk, hxc⟩
  
    · simp only [if_neg h]
      constructor
      · rintro (h1 | ⟨x, hx, hxk, hxc⟩)
        · exact Or.inl h1
        · exact Or.inr ⟨x, List.mem_cons_of_mem _ hx, hxk, hxc⟩
      · rintro (h1 | ⟨x, hx, hxk, hxc⟩)
        · exact Or.inl h1
        · rcases List.mem_cons.mp hx with rfl | hx
          · exact absurd hxc h
          · exact Or.inr ⟨x, hx, hxk, hxc⟩

/-- The output accumulator of `MissingKeys` appends, in order, exactly
the required keys absent from the satisfied set. -/
theorem foldl_missing_filter (req : List String) (found : List String) (acc : List String) :
    req.foldl (fun miss k => if k ∈ found then miss else miss ++ [k]) acc =
      acc ++ req.filter (fun k => decide (k ∉ found)) := by
  induction req generalizing acc with
  | nil => simp
  | cons k req ih =>
    by_cases h : k ∈ found
    · simp [List.foldl_cons, h, ih]
    · simp [List.foldl_cons, h, ih]

/-- C1: for every entity list and required list, `MissingKeys` returns
exactly those required keys for which no entity of that exact type has
confidence strictly greater than 0.5 (= `mkRat 1 2`) and start ≥ 0, in
the order of the required list (a filter of the required list). -/
theorem missingKeys_exact_filter (o : EntityOutput) (required : List String) :
    o.MissingKeys required =
      required.filter (fun k =>
        decide (¬ ∃ e ∈ o.Entities,
          e.Type' = k ∧ mkRat 1 2 < e.Confidence ∧ (0 : Int) ≤ e.Start)) := by
  unfold EntityOutput.MissingKeys
  rw [foldl_missing_filter]
  rw [List.nil_append]
  apply List.filter_congr
  intro k _
  apply decide_eq_decide.mpr
  apply not_congr
  rw [mem_foldl_satisfied]
  simp

/-- C2: for every raw input string, both parsers return a value with a
nil error; they are total functions of the input (totality is witnessed
by `ParseEntityOutput` and `ParseIntentOutput` being accepted as total
Lean definitions) and the error component is always `none`. -/
theorem parsers_never_fail (raw : String) :
    (ParseEntityOutput raw).2 = none ∧ (ParseIntentOutput raw).2 = none :=
  ⟨rfl, rfl⟩

/-- C3: the specification example parses to exactly two entities —
product (confidence 0.92 = `mkRat 92 100`, start 10) and price
(confidence 0.4 = `mkRat 4 10`, start 30) — with self-reported missing
`["brand"]`, and `MissingKeys` over `["product","price","brand"]`
returns `["price","brand"]` because price fails the strict 0.5
threshold. -/
theorem spec_example_parse_validate :
    (ParseEntityOutput "(entity<||>product<||>iPhone<||>10<||>15<||>0.92##(entity<||>price<||>20000<||>30<||>35<||>0.4##(missing<||>brand##<|COMPLETE|>").1
        = ⟨[⟨"product", "iPhone", 10, 15, mkRat 92 100⟩,
            ⟨"price", "20000", 30, 35, mkRat 4 10⟩], ["brand"], ""⟩ ∧
      (ParseEntityOutput "(entity<||>product<||>iPhone<||>10<||>15<||>0.92##(entity<||>price<||>20000<||>30<||>35<||>0.4##(missing<||>brand##<|COMPLETE|>").1.MissingKeys
          ["product", "price", "brand"] = ["price", "brand"] :=
  ⟨by decide, by decide⟩

/-- C10: records are trimmed as a whole but fields are never trimmed
individually: an entity record with a space after the field separator
produces a span whose type is `" product"` verbatim, which does not
satisfy the required key `"product"` in `MissingKeys`. -/
theorem parser_preserves_field_whitespace :
    (ParseEntityOutput "(entity<||> product<||>x<||>0<||>1<||>0.9").1
        = ⟨[⟨" product", "x", 0, 1, mkRat 9 10⟩], [], ""⟩ ∧
      (ParseEntityOutput "(entity<||> product<||>x<||>0<||>1<||>0.9").1.MissingKeys ["product"]
        = ["product"] :=
  ⟨by decide, by decide⟩

/-- One record processing step changes the language field to the
record's code exactly when the record is a valid language record. -/
theorem processEntityRecord_language (out : EntityOutput) (seg : List Char) :
    (processEntityRecord out seg).Language = (segLanguage seg).getD out.Language := by
  unfold processEntityRecord segLanguage
  dsimp only
  repeat' split
  all_goals simp_all

/-- Folding the record processor: the final language is the code of the
last valid language record, or the initial language when there is
none. -/
theorem parse_language_foldl (segs : List (List Char)) (out : EntityOutput) :
    (segs.foldl processEntityRecord out).Language =
      (segs.filterMap segLanguage).getLastD out.Language := by
  induction segs generalizing out with
  | nil => rfl
  | cons s ss ih =>
    rw [List.foldl_cons, ih, List.filterMap_cons]
    cases h : segLanguage s with
    | none => rw [processEntityRecord_language, h]; rfl
    | some c => rw [processEntityRecord_language, h, List.getLastD_cons]; rfl

/-- C9: the parsed `Language` equals the code field of the last valid
`(language` record (each later valid record overwrites the earlier
one), and is the empty string when the input has no valid language
record — both captured by `getLastD` over the valid language codes with
default `""`. -/
theorem parser_language_last_wins (raw : String) :
    (ParseEntityOutput raw).1.Language =
      ((splitRecords [] raw.toList).filterMap segLanguage).getLastD "" :=
  parse_language_foldl _ _

/-- Processing a dropped record leaves the output unchanged. -/
theorem processEntityRecord_dropped (out : EntityOutput) (seg : List Char)
    (h : droppedEntityRecord seg = true) : processEntityRecord out seg = out := by
  unfold droppedEntityRecord at h
  unfold processEntityRecord
  dsimp only
  repeat' split
  all_goals try simp_all [List.isPrefixOf_iff_prefix, Bool.eq_false_iff]
  all_goals omega

/-- C7: a record with an unknown tag, and an `(entity` record with
fewer than six fields, are silently dropped: they contribute no entity,
no missing key, no language and no error, and the surrounding records
parse exactly as if the dropped record were absent.  The first conjunct
ties the segment-level statement to `ParseEntityOutput`. -/
theorem parser_drops_malformed_records :
    (∀ raw : String,
        (ParseEntityOutput raw).1 = parseEntitySegments (splitRecords [] raw.toList)) ∧
      ∀ (pre post : List (List Char)) (seg : List Char),
        droppedEntityRecord seg = true →
          parseEntitySegments (pre ++ seg :: post) = parseEntitySegments (pre ++ post) := by
  refine ⟨fun _ => rfl, fun pre post seg h => ?_⟩
  unfold parseEntitySegments
  rw [List.foldl_append, List.foldl_append, List.foldl_cons,
    processEntityRecord_dropped _ _ h]

/-- Witness for C7: the two example records from the specification are
dropped and do not disturb the surrounding records. -/
theorem parser_drops_malformed_records_witness :
    droppedEntityRecord "(foo<||>bar<||>baz".toList = true ∧
      droppedEntityRecord "(entity<||>color<||>red".toList = true ∧
      parseEntitySegments
          ["(entity<||>a<||>b<||>1<||>2<||>0.9".toList, "(foo<||>bar<||>baz".toList,
            "(missing<||>k".toList] =
        parseEntitySegments
          ["(entity<||>a<||>b<||>1<||>2<||>0.9".toList, "(missing<||>k".toList] ∧
      parseEntitySegments
          ["(entity<||>a<||>b<||>1<||>2<||>0.9".toList, "(entity<||>color<||>red".toList,
            "(missing<||>k".toList] =
        parseEntitySegments
          ["(entity<||>a<||>b<||>1<||>2<||>0.9".toList, "(missing<||>k".toList] :=
  ⟨by decide, by decide,
    parser_drops_malformed_records.2 ["(entity<||>a<||>b<||>1<||>2<||>0.9".toList]
      ["(missing<||>k".toList] _ (by decide),
    parser_drops_malformed_records.2 ["(entity<||>a<||>b<||>1<||>2<||>0.9".toList]
      ["(missing<||>k".toList] _ (by decide)⟩

/-- Counterexample to C4: the entity renderer performs no trimming and
no emptiness validation — with every context field empty it still
succeeds and returns a rendered prompt (and `[]` is the admissible
iteration order of the empty entity set). -/
theorem renderEntity_accepts_empty_fields :
    isOkE (RenderEntitySystem "T" [] (some ⟨"", [], [], "", ""⟩)) = true ∧
      EnumOf ⟨"", [], [], "", ""⟩ [] :=
  ⟨rfl, by decide⟩

/-- C4 amended: only the persona flavor trims its input values and
fails when one of them is empty after trimming; the entity flavor
performs no emptiness validation and always succeeds on a non-nil
input. -/
theorem render_empty_validation_persona_only
    (applyOrder : List (String × String)) (template b c s m : String)
    (profiles : String → Option String)
    (h : strTrim b = "" ∨ strTrim c = "" ∨ strTrim s = "" ∨ strTrim m = "") :
    isOkE (renderSystemPrompt applyOrder template b c s m profiles) = false ∧
      ∀ (etemplate : String) (enumOrder : List String) (input : EntityModelInput),
        isOkE (RenderEntitySystem etemplate enumOrder (some input)) = true := by
  constructor
  · have hcond : strTrim b = "" ∨ strTrim c = "" ∨ strTrim s = "" ∨
        strToUpper (strTrim m) = "" := by
      rcases h with h | h | h | h
      · exact Or.inl h
      · exact Or.inr (Or.inl h)
      · exact Or.inr (Or.inr (Or.inl h))
      · exact Or.inr (Or.inr (Or.inr (by rw [h]; rfl)))
    unfold renderSystemPrompt
    dsimp only
    rw [if_pos hcond]
    rfl
  · intro _ _ _
    rfl

/-- Witness for the amended C4: a persona render with a blank brand
name fails, an entity render with arbitrary non-nil input succeeds. -/
theorem render_empty_validation_persona_only_witness :
    isOkE (renderSystemPrompt [] "T" " " "c" "s" "INTJ" (fun _ => none)) = false ∧
      isOkE (RenderEntitySystem "T" [] (some ⟨"x", ["k"], ["e"], "u", "l"⟩)) = true := by
  have happ := render_empty_validation_persona_only [] "T" " " "c" "s" "INTJ"
    (fun _ => none) (Or.inl (by decide))
  exact ⟨happ.1, happ.2 "T" [] ⟨"x", ["k"], ["e"], "u", "l"⟩⟩

/-- Counterexample to C5: the entity renderer performs no residual
unresolved-marker scan — substituting a user message containing a
literal double brace succeeds, and the rendered output contains the
marker. -/
theorem renderEntity_keeps_unresolved_marker :
    EnumOf ⟨"intent1", ["k"], ["e"], "a\x7b\x7bb", "en"⟩ ["e"] ∧
      isOkE (RenderEntitySystem "\x7b\x7buser_message\x7d\x7d" ["e"]
        (some ⟨"intent1", ["k"], ["e"], "a\x7b\x7bb", "en"⟩)) = true ∧
      renderedText (RenderEntitySystem "\x7b\x7buser_message\x7d\x7d" ["e"]
        (some ⟨"intent1", ["k"], ["e"], "a\x7b\x7bb", "en"⟩)) = "a\x7b\x7bb" ∧
      hasSubstr "a\x7b\x7bb" "\x7b\x7b" = true :=
  ⟨by decide, rfl, by decide, by decide⟩

/-- C5 amended: only the persona renderer scans its result for a
residual unresolved-placeholder marker; whenever it succeeds its output
contains no literal double brace (the entity renderer performs no such
scan — see the counterexample). -/
theorem persona_render_no_residual_marker
    (applyOrder : List (String × String)) (template b c s m : String)
    (profiles : String → Option String) (r : String)
    (h : renderSystemPrompt applyOrder template b c s m profiles = Except.ok r) :
    hasSubstr r "\x7b\x7b" = false := by
  unfold renderSystemPrompt at h
  dsimp only at h
  split at h
  · simp at h
  · split at h
    · simp at h
    · split at h
      · simp at h
      · rename_i hscan
        injection h with h2
        rw [← h2]
        exact Bool.eq_false_iff.mpr hscan

/-- Witness for the amended C5: a concrete successful persona render
whose output has no residual marker. -/
theorem persona_render_no_residual_marker_witness :
    hasSubstr "T" "\x7b\x7b" = false :=
  persona_render_no_residual_marker [] "T" "b" "c" "s" "INTJ"
    (fun k => if k = "INTJ" then some "d" else none) "T" (by rfl)

/-- C6 divergence theorem: two admissible iteration orders of the
deduplicated allowed-entity set produce different rendered outputs for
the same input, so the join order — Go map iteration order, randomized
at run time — is not a function of the input as the claim requires. -/
theorem renderEntity_join_order_dependent :
    EnumOf entityInputC6 ["brand", "price"] ∧ EnumOf entityInputC6 ["price", "brand"] ∧
      RenderEntitySystem "\x7b\x7ballowed_entities_csv\x7d\x7d" ["brand", "price"]
          (some entityInputC6) ≠
        RenderEntitySystem "\x7b\x7ballowed_entities_csv\x7d\x7d" ["price", "brand"]
          (some entityInputC6) := by
  refine ⟨by decide, by decide, fun hEq => ?_⟩
  have h2 := congrArg renderedText hEq
  exact absurd h2 (by decide)

/-- The Go replacer with the single-character pairs `" " → "_"` and
`"-" → "_"` acts as a character map. -/
theorem replaceManyFuel_spaceHyphen (l : List Char) (fuel : Nat) (hfuel : l.length ≤ fuel) :
    replaceManyFuel [([' '], ['_']), (['-'], ['_'])] fuel l =
      l.map (fun ch => if ch = ' ' ∨ ch = '-' then '_' else ch) := by
  induction l generalizing fuel with
  | nil => cases fuel <;> rfl
  | cons ch l ih =>
    cases fuel with
    | zero => simp at hfuel
    | succ fuel =>
      simp only [List.length_cons, Nat.succ_le_succ_iff] at hfuel
      by_cases hsp : ch = ' '
      · subst hsp
        simp [replaceManyFuel, matchRep, List.find?, List.isPrefixOf, ih fuel hfuel]
      · by_cases hhy : ch = '-'
        · subst hhy
          simp [replaceManyFuel, matchRep, List.find?, List.isPrefixOf, ih fuel hfuel]
        · have h1 : (' ' == ch) = false := by
            simp only [beq_eq_false_iff_ne, ne_eq]
            exact fun hh => hsp hh.symm
          have h2 : ('-' == ch) = false := by
            simp only [beq_eq_false_iff_ne, ne_eq]
            exact fun hh => hhy hh.symm
          simp [replaceManyFuel, matchRep, List.find?, List.isPrefixOf, h1, h2, hsp, hhy,
            ih fuel hfuel]

/-- Counterexample to C8: for the empty intent name the function
returns early without consulting the configuration, although an entry
for the normalized (empty) name is configured; the claim would require
that entry's keys (`["brand"]`), the code returns `[]`. -/
theorem requiredKeys_empty_name_ignores_config :
    envC8 ("NLU_REQUIRED_" ++ strToUpper (goReplacer [(" ", "_"), ("-", "_")]
        (strTrim ""))) = "brand" ∧
      RequiredKeysForIntent envC8 "" = [] :=
  ⟨by decide, rfl⟩

/-- C8 amended: for every non-empty intent name the registry lookup
normalizes the name (trim, replace each space and hyphen with an
underscore, uppercase) and consults the configuration under the
`NLU_REQUIRED_` prefix; an absent (empty) entry yields `[]` and never
an error, and a present entry yields its comma-separated keys in
declared order, each trimmed, with empty items dropped.  The empty
intent name short-circuits to `[]` without consulting the
configuration. -/
theorem requiredKeys_lookup_characterization (env : String → String) (name : String)
    (h : name ≠ "") :
    RequiredKeysForIntent env name =
      (if env ("NLU_REQUIRED_" ++ strToUpper
            ⟨(strTrim name).toList.map
              (fun ch => if ch = ' ' ∨ ch = '-' then '_' else ch)⟩) = ""
       then []
       else (((splitCommaL [] (env ("NLU_REQUIRED_" ++ strToUpper
              ⟨(strTrim name).toList.map
                (fun ch => if ch = ' ' ∨ ch = '-' then '_' else ch)⟩)).toList).map
            (fun part => strTrim ⟨part⟩)).filter (fun k => k ≠ ""))) := by
  have e1 : (" " : String).toList = [' '] := rfl
  have e2 : ("_" : String).toList = ['_'] := rfl
  have e3 : ("-" : String).toList = ['-'] := rfl
  have hrep : goReplacer [(" ", "_"), ("-", "_")] (strTrim name) =
      ⟨(strTrim name).toList.map (fun ch => if ch = ' ' ∨ ch = '-' then '_' else ch)⟩ := by
    unfold goReplacer
    simp only [List.map_cons, List.map_nil, e1, e2, e3]
    congr 1
    exact replaceManyFuel_spaceHyphen _ _ (le_refl _)
  unfold RequiredKeysForIntent
  rw [if_neg h]
  dsimp only
  rw [hrep]

/-- Witness for the amended C8: looking up the intent `"add item"`
against an environment configuring `NLU_REQUIRED_ADD_ITEM` returns the
trimmed keys in order with empty items dropped. -/
theorem requiredKeys_lookup_characterization_witness :
    ("add item" : String) ≠ "" ∧
      RequiredKeysForIntent envW "add item" = ["brand", "price"] := by
  refine ⟨by decide, ?_⟩
  rw [requiredKeys_lookup_characterization envW "add item" (by decide)]
  decide
